import Mathlib

/-!
Shallow embedding of the analysis core of `analisador-sentencas-app.py`.

The program is a small Streamlit dashboard over a pandas DataFrame of court
decisions.  The analyzable core consists of:

* `filtrar_dados` (source lines 65–69): filter the corpus by court;
* `analisar_frequencia_termos` (source lines 71–94): normalize a raw
  comma-separated term string, count non-overlapping whole-word regex matches
  of each term over the lower-cased `Ementa` column, collect the counts in a
  dict, and sort the resulting table descending by count;
* the sample-selection step of `main` (source lines 148–157): rebuild the
  normalized term list, join the per-term word-boundary patterns with `|`,
  and keep the rows whose lower-cased `Ementa` matches the combined pattern;
* the validation step of `main` (source lines 134–137): reject an empty or
  whitespace-only raw term string before any pipeline step runs.

A DataFrame is modelled as a `List Record` (row order = list order; boolean
mask filtering = `List.filter`).  The Python regex `r'\b' + re.escape(t) + r'\b'`
searches for the literal text `t` flanked by word boundaries, where `\b`
matches at a position iff exactly one of the two adjacent characters is a
word character (a missing character, before the start or after the end,
counts as a non-word character); `re.escape` makes every character of `t`
literal, so the pattern semantics is plain substring occurrence plus the two
boundary tests, which is what `wordAt` below implements.  Counting with
`Series.str.count` is `len(re.findall(...))`: a left-to-right scan that
resumes after the end of each match (non-overlapping), implemented by
`countAux`; `Series.str.contains` is `re.search` existence, implemented by
`existeAux`.
-/

set_option autoImplicit false

namespace AnalisadorSentencas

/-- Word characters of Python's Unicode-aware `\w`, restricted to the
alphabet the program can encounter: ASCII alphanumerics, underscore, and the
Latin-1 Supplement / Latin Extended-A / Latin Extended-B letters
(`U+00C0`–`U+024F` minus the two operators `×` `U+00D7` and `÷` `U+00F7`),
which contain every accented character of the Portuguese domain texts. -/
def isWordChar (c : Char) : Bool :=
  c.isAlphanum || c = '_' ||
    (0xC0 ≤ c.toNat && c.toNat ≤ 0x24F && c.toNat ≠ 0xD7 && c.toNat ≠ 0xF7)

/-- Python `str.lower` restricted to ASCII and the Latin-1 Supplement:
uppercase `A`–`Z` and `À`–`Þ` (minus `×`) map to their lowercase forms 32
code points higher; every other character is unchanged. -/
def pyToLower (c : Char) : Char :=
  if c.toNat < 0x80 then c.toLower
  else if 0xC0 ≤ c.toNat && c.toNat ≤ 0xDE && c.toNat ≠ 0xD7 then
    Char.ofNat (c.toNat + 0x20)
  else c

/-- Python `str.lower` on a whole string (`.str.lower()` on the `Ementa`
column, source lines 78 and 156). -/
def lowerStr (s : String) : String := ⟨s.data.map pyToLower⟩

/-- ASCII whitespace as stripped by Python `str.strip()` (space, tab,
newline, carriage return, vertical tab, form feed; the Unicode space
characters Python also strips play no role in this program's inputs). -/
def isPySpace (c : Char) : Bool :=
  c = ' ' || c = '\t' || c = '\n' || c = '\r' ||
    c = Char.ofNat 0x0B || c = Char.ofNat 0x0C

/-- Leading and trailing whitespace removal on a character list. -/
def stripChars (l : List Char) : List Char :=
  ((l.dropWhile isPySpace).reverse.dropWhile isPySpace).reverse

/-- Python `str.strip` (leading/trailing whitespace removal), used both for
validation (source line 135) and for term normalization (lines 75 and 148). -/
def strip (s : String) : String := ⟨stripChars s.data⟩

/-- Python `str.split(',')`: split at every comma; the empty string splits
to `[""]`, and consecutive commas produce empty pieces. -/
def splitComma : List Char → List (List Char)
  | [] => [[]]
  | c :: rs =>
    if c = ',' then [] :: splitComma rs
    else
      match splitComma rs with
      | [] => [[c]]
      | p :: ps => (c :: p) :: ps

/-- One row of the simulated DataFrame (source lines 53–58): columns
`ID_Decisao`, `Tribunal`, `Ementa`, `Resultado`. -/
structure Record where
  ID_Decisao : Nat
  Tribunal : String
  Ementa : String
  Resultado : String
deriving DecidableEq

/-- Source lines 65–69: `filtrar_dados(df, tribunal_filtro)` returns `df`
unchanged for filter `"AMBOS"` and otherwise the rows whose `Tribunal`
column equals the filter, in row order. -/
def filtrar_dados (df : List Record) (tribunal_filtro : String) : List Record :=
  if tribunal_filtro = "AMBOS" then df
  else df.filter (fun r => r.Tribunal = tribunal_filtro)

/-- Source lines 75 and 148:
`[t.strip().lower() for t in termos_chave.split(',') if t.strip()]` —
split the raw string on commas, keep the pieces whose stripped form is
non-empty, and map each kept piece to its stripped, lower-cased form. -/
def termos_list (termos_chave : String) : List String :=
  ((splitComma termos_chave.data).filter (fun t => !(stripChars t).isEmpty)).map
    (fun t => lowerStr ⟨stripChars t⟩)

/-- Whether an optional character is a word character; `none` (before the
start or past the end of the text) counts as non-word, exactly as Python's
`\b` treats the ends of the string. -/
def optWord (o : Option Char) : Bool := (o.map isWordChar).getD false

/-- Python's `\b`: a word boundary lies between two (optional) characters
iff exactly one of them is a word character. -/
def boundary (a b : Option Char) : Bool := optWord a != optWord b

/-- The pattern `r'\b' + re.escape(t) + r'\b'` matches at the current
position of the text (whose remaining characters are `rest` and whose
preceding character, if any, is `prev`) iff the literal characters of `t`
are a prefix of `rest`, a word boundary lies between `prev` and the first
character of `t`, and a word boundary lies between the last character of
`t` and the character following the occurrence. -/
def wordAt (prev : Option Char) (t rest : List Char) : Bool :=
  t.isPrefixOf rest && boundary prev t.head? &&
    boundary t.getLast? (rest.drop t.length).head?

/-- Left-to-right scan counting non-overlapping matches, as
`len(re.findall(pattern, text))` does (source line 88, via
`Series.str.count`): at each position, if the word-boundary pattern matches,
count it and resume after the matched occurrence; otherwise advance one
character.  `fuel` bounds the recursion; `fuel = rest.length` is always
enough because each step consumes at least one character of `rest` when the
searched term is non-empty. -/
def countAux (t : List Char) (prev : Option Char) (rest : List Char)
    (fuel : Nat) : Nat :=
  match fuel, rest with
  | 0, _ => 0
  | _ + 1, [] => 0
  | fuel + 1, c :: rs =>
    if wordAt prev t (c :: rs) then
      1 + countAux t t.getLast? ((c :: rs).drop t.length) fuel
    else
      countAux t (some c) rs fuel

/-- Number of non-overlapping matches of `r'\b' + re.escape(termo) + r'\b'`
in `texto` (the text is already lower-cased by the caller).  The term is
never empty in the program (empty pieces are discarded by `termos_list`);
the guard only keeps the scan total. -/
def contar_ocorrencias (termo texto : String) : Nat :=
  if termo.data.isEmpty then 0
  else countAux termo.data none texto.data texto.data.length

/-- Existence of a match of `r'\b' + re.escape(t) + r'\b'` anywhere in the
text: `re.search` on a single word-boundary pattern. -/
def existeAux (t : List Char) (prev : Option Char) : List Char → Bool
  | [] => false
  | c :: rs => wordAt prev t (c :: rs) || existeAux t (some c) rs

/-- Whether `texto` contains `termo` as a whole word (word-boundary sense). -/
def contem_palavra (termo texto : String) : Bool :=
  existeAux termo.data none texto.data

/-- Source lines 152–156: `'|'.join(patterns)` followed by
`str.contains(..., regex=True)`.  For a non-empty term list the alternation
matches iff some term's word-boundary pattern matches; for an empty term
list the joined pattern is the empty string, and `re.search('', s)` matches
every string. -/
def contem_padrao_or (termos : List String) (texto : String) : Bool :=
  if termos.isEmpty then true
  else termos.any (fun t => contem_palavra t texto)

/-- Source line 88: `ementas_lower.str.count(padrao).sum()` — the total
count of a term over all rows' lower-cased `Ementa` texts. -/
def contagem (df : List Record) (termo : String) : Nat :=
  (df.map (fun r => contar_ocorrencias termo (lowerStr r.Ementa))).sum

/-- Python dict assignment `d[k] = v` on an insertion-ordered association
list: an existing key keeps its position and gets the new value; a new key
is appended at the end. -/
def dictInsert (k : String) (v : Nat) : List (String × Nat) → List (String × Nat)
  | [] => [(k, v)]
  | (k', v') :: rest =>
    if k' = k then (k, v) :: rest else (k', v') :: dictInsert k v rest

/-- Source lines 73–89: the loop filling the `frequencias` dict, one
assignment `frequencias[termo] = contagem` per term of the normalized list
(duplicate terms overwrite with the same value). -/
def freqs (df : List Record) (termos : List String) : List (String × Nat) :=
  termos.foldl (fun acc t => dictInsert t (contagem df t) acc) []

/-- Source line 93: `sort_values(by='Frequência', ascending=False)`.
pandas computes an ascending argsort of the key column and reverses the
resulting permutation for a descending sort; numpy's introsort runs as a
stable insertion sort at the sizes a term list can reach, so the model is a
stable ascending sort by count followed by a reversal (which puts rows with
equal counts in reverse insertion order). -/
def sort_desc (l : List (String × Nat)) : List (String × Nat) :=
  (List.insertionSort (fun p q => p.2 ≤ q.2) l).reverse

/-- Source lines 71–94: `analisar_frequencia_termos(df_filtrado, termos_chave)`
returns the (term, count) table, sorted descending by count. -/
def analisar_frequencia_termos (df_filtrado : List Record)
    (termos_chave : String) : List (String × Nat) :=
  sort_desc (freqs df_filtrado (termos_list termos_chave))

/-- Source lines 155–157: keep the rows of the filtered corpus whose
lower-cased `Ementa` matches the combined OR pattern, in row order. -/
def selecionar_amostra (df_filtrado : List Record) (termos : List String) :
    List Record :=
  df_filtrado.filter (fun r => contem_padrao_or termos (lowerStr r.Ementa))

/-- Source lines 134–157, the analysis branch of `main`: if the raw term
string strips to empty, report a validation error (`none`) and run nothing;
otherwise filter by court, compute the frequency table, and select the
matching sample. -/
def run_analysis (df : List Record) (tribunal_filtro termos_chave : String) :
    Option (List (String × Nat) × List Record) :=
  if strip termos_chave = "" then none
  else
    let df_filtrado := filtrar_dados df tribunal_filtro
    some (analisar_frequencia_termos df_filtrado termos_chave,
          selecionar_amostra df_filtrado (termos_list termos_chave))

/-! ### Sample records

Concrete rows used to instantiate theorems; the texts come from the
repository's own term lists and from the spec's worked scenario. -/

/-- Sample row 1 of the spec's scenario. -/
def rec1 : Record := ⟨1, "STF", "Dano moral e indenização.", "Procedente"⟩

/-- Sample row 2 of the spec's scenario. -/
def rec2 : Record := ⟨2, "STJ", "Prescrição e coisa julgada.", "Improcedente"⟩

/-- Row whose text contains "ação" as a standalone word. -/
def recAcao : Record := ⟨3, "STF", "Ação civil", "Procedente"⟩

/-- Row whose text contains the letters of "merito" only inside a longer
word. -/
def recMerito : Record := ⟨4, "STJ", "Meritocracia analisada", "Improcedente"⟩

/-- Row whose text contains the letters of "ação" only as the tail of the
longer word "doação". -/
def recDoacao : Record := ⟨5, "STF", "Doação legal", "Procedente"⟩

/-! ### Helper lemmas -/

lemma getLast?_cons_or :
    ∀ (pre : List Char) (c : Char) (prev : Option Char),
      ((c :: pre).getLast?).or prev = (pre.getLast?).or (some c)
  | [], _, _ => rfl
  | x :: xs, c, prev => by
    rw [List.getLast?_cons_cons, getLast?_cons_or xs x prev,
      getLast?_cons_or xs x (some c)]

/-- A positive count of the word-boundary scan exhibits an occurrence of
the literal term with a word boundary on each side. -/
lemma countAux_pos :
    ∀ (fuel : Nat) (t : List Char) (prev : Option Char) (rest : List Char),
      0 < countAux t prev rest fuel →
      ∃ pre post, rest = pre ++ t ++ post ∧
        boundary ((pre.getLast?).or prev) t.head? = true ∧
        boundary t.getLast? post.head? = true
  | 0, _, _, _, h => absurd h (by simp [countAux])
  | _ + 1, _, _, [], h => absurd h (by simp [countAux])
  | fuel + 1, t, prev, c :: rs, h => by
    by_cases hw : wordAt prev t (c :: rs) = true
    · have hw' := hw
      simp only [wordAt, Bool.and_eq_true] at hw'
      obtain ⟨⟨hpre, hb1⟩, hb2⟩ := hw'
      obtain ⟨u, hu⟩ := List.isPrefixOf_iff_prefix.mp hpre
      refine ⟨[], u, by simpa using hu.symm, by simpa using hb1, ?_⟩
      rw [← hu, List.drop_left] at hb2
      exact hb2
    · have h' : 0 < countAux t (some c) rs fuel := by
        simpa [countAux, hw] using h
      obtain ⟨pre', post', he, hb1, hb2⟩ := countAux_pos fuel t (some c) rs h'
      exact ⟨c :: pre', post', by rw [List.cons_append, List.cons_append, ← he],
        by rwa [getLast?_cons_or], hb2⟩

/-- A successful word-boundary search exhibits an occurrence of the literal
term with a word boundary on each side. -/
lemma existeAux_true :
    ∀ (rest : List Char) (t : List Char) (prev : Option Char),
      existeAux t prev rest = true →
      ∃ pre post, rest = pre ++ t ++ post ∧
        boundary ((pre.getLast?).or prev) t.head? = true ∧
        boundary t.getLast? post.head? = true
  | [], _, _, h => absurd h (by simp [existeAux])
  | c :: rs, t, prev, h => by
    rw [existeAux, Bool.or_eq_true] at h
    rcases h with hw | hrec
    · simp only [wordAt, Bool.and_eq_true] at hw
      obtain ⟨⟨hpre, hb1⟩, hb2⟩ := hw
      obtain ⟨u, hu⟩ := List.isPrefixOf_iff_prefix.mp hpre
      refine ⟨[], u, by simpa using hu.symm, by simpa using hb1, ?_⟩
      rw [← hu, List.drop_left] at hb2
      exact hb2
    · obtain ⟨pre', post', he, hb1, hb2⟩ := existeAux_true rs t (some c) hrec
      exact ⟨c :: pre', post', by rw [List.cons_append, List.cons_append, ← he],
        by rwa [getLast?_cons_or], hb2⟩

/-- Dict assignment keeps the key sequence unchanged for an existing key and
appends a fresh key at the end. -/
lemma keys_dictInsert (k : String) (v : Nat) (l : List (String × Nat)) :
    (dictInsert k v l).map Prod.fst =
      if k ∈ l.map Prod.fst then l.map Prod.fst else l.map Prod.fst ++ [k] := by
  induction l with
  | nil => simp [dictInsert]
  | cons p ps ih =>
    obtain ⟨k', v'⟩ := p
    by_cases hk : k' = k
    · subst hk
      simp [dictInsert]
    · simp only [dictInsert, if_neg hk, List.map_cons, ih]
      by_cases hps : k ∈ ps.map Prod.fst
      · rw [if_pos hps, if_pos (List.mem_cons_of_mem k' hps)]
      · rw [if_neg hps,
          if_neg (fun h =>
            (List.mem_cons.mp h).elim (fun h' => hk h'.symm) hps),
          List.cons_append]

lemma mem_keys_dictInsert (a k : String) (v : Nat) (l : List (String × Nat)) :
    a ∈ (dictInsert k v l).map Prod.fst ↔ a ∈ l.map Prod.fst ∨ a = k := by
  rw [keys_dictInsert]
  by_cases h : k ∈ l.map Prod.fst
  · simp only [h, if_true]
    exact ⟨Or.inl, fun h' => h'.elim id (fun ha => ha ▸ h)⟩
  · simp [h]

lemma nodup_keys_dictInsert (k : String) (v : Nat) (l : List (String × Nat))
    (h : (l.map Prod.fst).Nodup) :
    ((dictInsert k v l).map Prod.fst).Nodup := by
  rw [keys_dictInsert]
  by_cases hk : k ∈ l.map Prod.fst
  · simpa [hk] using h
  · simp [hk, List.nodup_append, h]

/-- Every entry written by a dict assignment with value `f k` keeps the
invariant that an entry's value is `f` of its key. -/
lemma dictInsert_values (f : String → Nat) (k : String)
    (l : List (String × Nat)) (hl : ∀ p ∈ l, p.2 = f p.1) :
    ∀ p ∈ dictInsert k (f k) l, p.2 = f p.1 := by
  induction l with
  | nil =>
    intro p hp
    simp [dictInsert] at hp
    simp [hp]
  | cons q qs ih =>
    intro p hp
    obtain ⟨k', v'⟩ := q
    by_cases hk : k' = k
    · subst hk
      simp [dictInsert] at hp
      rcases hp with hp | hp
      · simp [hp]
      · exact hl p (List.mem_cons_of_mem _ hp)
    · simp only [dictInsert, if_neg hk, List.mem_cons] at hp
      rcases hp with hp | hp
      · exact hp ▸ hl (k', v') (List.mem_cons_self _ _)
      · exact ih (fun q hq => hl q (List.mem_cons_of_mem _ hq)) p hp

/-- Invariant of the dict-filling fold: every entry's value is the total
count of its key. -/
lemma freqs_fold_values (df : List Record) :
    ∀ (termos : List String) (acc : List (String × Nat)),
      (∀ p ∈ acc, p.2 = contagem df p.1) →
      ∀ p ∈ termos.foldl (fun acc t => dictInsert t (contagem df t) acc) acc,
        p.2 = contagem df p.1
  | [], _acc, hacc => hacc
  | t :: ts, acc, hacc =>
    freqs_fold_values df ts (dictInsert t (contagem df t) acc)
      (dictInsert_values (contagem df) t acc hacc)

/-- Key membership of the dict-filling fold: a key appears iff it was
already in the accumulator or is one of the processed terms. -/
lemma freqs_fold_mem (df : List Record) :
    ∀ (termos : List String) (acc : List (String × Nat)) (a : String),
      (a ∈ (termos.foldl (fun acc t => dictInsert t (contagem df t) acc)
          acc).map Prod.fst) ↔ a ∈ acc.map Prod.fst ∨ a ∈ termos
  | [], acc, a => by simp
  | t :: ts, acc, a => by
    rw [List.foldl_cons, freqs_fold_mem df ts _ a, mem_keys_dictInsert]
    simp [List.mem_cons]
    tauto

/-- The dict-filling fold preserves distinctness of the keys. -/
lemma freqs_fold_nodup (df : List Record) :
    ∀ (termos : List String) (acc : List (String × Nat)),
      (acc.map Prod.fst).Nodup →
      ((termos.foldl (fun acc t => dictInsert t (contagem df t) acc)
          acc).map Prod.fst).Nodup
  | [], _acc, hacc => hacc
  | t :: ts, acc, hacc =>
    freqs_fold_nodup df ts (dictInsert t (contagem df t) acc)
      (nodup_keys_dictInsert t (contagem df t) acc hacc)

/-- The keys of the frequency dict are exactly the distinct terms. -/
lemma freqs_keys_nodup (df : List Record) (termos : List String) :
    ((freqs df termos).map Prod.fst).Nodup :=
  freqs_fold_nodup df termos [] (by simp)

lemma freqs_keys_mem (df : List Record) (termos : List String) (a : String) :
    a ∈ (freqs df termos).map Prod.fst ↔ a ∈ termos := by
  rw [freqs, freqs_fold_mem df termos [] a]
  simp

lemma freqs_values (df : List Record) (termos : List String) :
    ∀ p ∈ freqs df termos, p.2 = contagem df p.1 :=
  freqs_fold_values df termos [] (by simp)

/-- The descending sort is a permutation of its input. -/
lemma sort_desc_perm (l : List (String × Nat)) : (sort_desc l).Perm l := by
  rw [sort_desc]
  exact ((List.insertionSort (fun p q => p.2 ≤ q.2) l).reverse_perm).trans
    (List.perm_insertionSort _ l)

instance : IsTotal (String × Nat) (fun p q => p.2 ≤ q.2) :=
  ⟨fun a b => Nat.le_total a.2 b.2⟩

instance : IsTrans (String × Nat) (fun p q => p.2 ≤ q.2) :=
  ⟨fun _ _ _ h h' => Nat.le_trans h h'⟩

/-- The descending sort really is descending: pairwise, any later row has a
count no larger than any earlier row. -/
lemma sort_desc_sorted (l : List (String × Nat)) :
    (sort_desc l).Pairwise (fun p q => q.2 ≤ p.2) := by
  rw [sort_desc, List.pairwise_reverse]
  exact List.sorted_insertionSort (fun p q => p.2 ≤ q.2) l

/-! ### Claim theorems -/

/-- C1: counting is case-insensitive (the pipeline lower-cases the text
before matching) and matches whole words only: any positive count exhibits
the term as a literal occurrence flanked by a word boundary on each side,
so a term never counts as a proper substring of a longer word; accented
letters are word characters for boundary purposes; concretely, "ação"
counts exactly once in "Ação civil", "mérito" counts zero times in
"Meritocracia analisada", and "ação" counts zero times inside the longer
word "Doação". -/
theorem C1_palavra_inteira :
    (∀ t s : String, 0 < contar_ocorrencias t s →
        ∃ pre post, s.data = pre ++ t.data ++ post ∧
          boundary pre.getLast? t.data.head? = true ∧
          boundary t.data.getLast? post.head? = true) ∧
    isWordChar 'ç' = true ∧ isWordChar 'ã' = true ∧ isWordChar 'é' = true ∧
    contagem [recAcao] "ação" = 1 ∧
    contagem [recMerito] "mérito" = 0 ∧
    contagem [recDoacao] "ação" = 0 := by
  refine ⟨?_, by decide, by decide, by decide, by decide, by decide,
    by decide⟩
  intro t s h
  by_cases he : t.data.isEmpty
  · rw [contar_ocorrencias, if_pos he] at h
    exact absurd h (by simp)
  · rw [contar_ocorrencias, if_neg he] at h
    obtain ⟨pre, post, hs, hb1, hb2⟩ := countAux_pos _ _ _ _ h
    rw [Option.or_none] at hb1
    exact ⟨pre, post, hs, hb1, hb2⟩

/-- Witness for C1: in "ação civil" the count of "ação" is positive, and
the theorem produces the boundary-flanked occurrence. -/
theorem C1_palavra_inteira_witness :
    0 < contar_ocorrencias "ação" "ação civil" ∧
    ∃ pre post, ("ação civil").data = pre ++ ("ação").data ++ post ∧
      boundary pre.getLast? ("ação").data.head? = true ∧
      boundary ("ação").data.getLast? post.head? = true :=
  ⟨by decide, C1_palavra_inteira.1 "ação" "ação civil" (by decide)⟩

/-- C4: `filtrar_dados` returns the corpus unchanged for filter `"AMBOS"`;
for any other filter value it returns exactly the rows whose `Tribunal`
equals the filter, as an order-preserving sublist of the corpus.  (The
function is pure: in this embedding it is a function of its arguments with
no other state.) -/
theorem C4_filtrar_dados (df : List Record) :
    filtrar_dados df "AMBOS" = df ∧
    ∀ tf, tf ≠ "AMBOS" →
      List.Sublist (filtrar_dados df tf) df ∧
      ∀ r, r ∈ filtrar_dados df tf ↔ r ∈ df ∧ r.Tribunal = tf := by
  refine ⟨by simp [filtrar_dados], fun tf htf => ?_⟩
  rw [filtrar_dados, if_neg htf]
  exact ⟨List.filter_sublist df, fun r => by simp [List.mem_filter]⟩

/-- Witness for C4 on the spec's two-row corpus with filter `"STF"`. -/
theorem C4_filtrar_dados_witness :
    filtrar_dados [rec1, rec2] "AMBOS" = [rec1, rec2] ∧
    (List.Sublist (filtrar_dados [rec1, rec2] "STF") [rec1, rec2] ∧
      ∀ r, r ∈ filtrar_dados [rec1, rec2] "STF" ↔
        r ∈ [rec1, rec2] ∧ r.Tribunal = "STF") :=
  ⟨(C4_filtrar_dados [rec1, rec2]).1,
    (C4_filtrar_dados [rec1, rec2]).2 "STF" (by decide)⟩

/-- C7: terms are matched as literal text (`re.escape`): a positive count
or a successful match exhibits the term's exact character sequence inside
the text, never an interpretation of any character as pattern syntax; the
term "2.0", whose dot would match any character under pattern semantics,
does not match "2x0" but matches "2.0". -/
theorem C7_termos_literais :
    (∀ t s : String, 0 < contar_ocorrencias t s →
        ∃ pre post, s.data = pre ++ t.data ++ post) ∧
    (∀ t s : String, contem_palavra t s = true →
        ∃ pre post, s.data = pre ++ t.data ++ post) ∧
    contar_ocorrencias "2.0" "o valor 2x0 difere" = 0 ∧
    contar_ocorrencias "2.0" "o valor 2.0 consta" = 1 ∧
    contem_padrao_or ["2.0"] "o valor 2x0 difere" = false ∧
    contem_padrao_or ["2.0"] "o valor 2.0 consta" = true := by
  refine ⟨?_, ?_, by decide, by decide, by decide, by decide⟩
  · intro t s h
    by_cases he : t.data.isEmpty
    · rw [contar_ocorrencias, if_pos he] at h
      exact absurd h (by simp)
    · rw [contar_ocorrencias, if_neg he] at h
      obtain ⟨pre, post, hs, -, -⟩ := countAux_pos _ _ _ _ h
      exact ⟨pre, post, hs⟩
  · intro t s h
    rw [contem_palavra] at h
    obtain ⟨pre, post, hs, -, -⟩ := existeAux_true _ _ _ h
    exact ⟨pre, post, hs⟩

/-- Witness for C7: both implications applied to the term "2.0" occurring
literally in "o valor 2.0 consta". -/
theorem C7_termos_literais_witness :
    (0 < contar_ocorrencias "2.0" "o valor 2.0 consta" ∧
      ∃ pre post, ("o valor 2.0 consta").data = pre ++ ("2.0").data ++ post) ∧
    (contem_palavra "2.0" "o valor 2.0 consta" = true ∧
      ∃ pre post, ("o valor 2.0 consta").data = pre ++ ("2.0").data ++ post) :=
  ⟨⟨by decide, C7_termos_literais.1 "2.0" "o valor 2.0 consta" (by decide)⟩,
    ⟨by decide,
      C7_termos_literais.2.1 "2.0" "o valor 2.0 consta" (by decide)⟩⟩

/-- C8: an empty or whitespace-only raw term string fails validation: the
analysis branch returns `none` and no pipeline step runs (nothing of the
filter/count/select pipeline appears in the result); conversely, a valid
term list that occurs nowhere is a non-error outcome: the pipeline returns
`some` with a zero count and an empty sample. -/
theorem C8_validacao :
    (∀ (df : List Record) (tf raw : String),
        strip raw = "" → run_analysis df tf raw = none) ∧
    run_analysis [] "AMBOS" "inexistente" =
      some ([("inexistente", 0)], []) := by
  refine ⟨fun df tf raw h => ?_, by decide⟩
  rw [run_analysis, if_pos h]

/-- Witness for C8: a whitespace-only raw input on a non-empty corpus is
rejected. -/
theorem C8_validacao_witness :
    strip "   " = "" ∧ run_analysis [rec1] "AMBOS" "   " = none :=
  ⟨by decide, C8_validacao.1 [rec1] "AMBOS" "   " (by decide)⟩

/-- C9: the whole pipeline is deterministic: it is embedded as pure
functions of the corpus, the category filter, and the raw term string (the
source's analysis functions read no global state and use no randomness), so
repeated invocations with identical inputs give identical results. -/
theorem C9_determinismo (df : List Record) (tf raw : String) :
    run_analysis df tf raw = run_analysis df tf raw ∧
    analisar_frequencia_termos df raw = analisar_frequencia_termos df raw ∧
    filtrar_dados df tf = filtrar_dados df tf ∧
    selecionar_amostra df (termos_list raw) =
      selecionar_amostra df (termos_list raw) :=
  ⟨rfl, rfl, rfl, rfl⟩

/-- C10: a raw term string that is not whitespace-only but has no non-empty
comma-separated piece (such as `","`) passes validation, normalizes to the
empty term list, and the joined OR pattern is the empty pattern, which
matches every row: the analysis returns the whole filtered corpus as the
sample and an empty frequency table. -/
theorem C10_padrao_vazio :
    (∀ (df : List Record) (tf raw : String),
        strip raw ≠ "" → termos_list raw = [] →
        run_analysis df tf raw = some ([], filtrar_dados df tf)) ∧
    strip "," ≠ "" ∧ termos_list "," = [] ∧
    contem_padrao_or [] "qualquer texto" = true := by
  refine ⟨fun df tf raw h1 h2 => ?_, by decide, by decide, by decide⟩
  have hfreq : analisar_frequencia_termos (filtrar_dados df tf) raw = [] := by
    rw [analisar_frequencia_termos, h2]
    rfl
  have hsel : selecionar_amostra (filtrar_dados df tf) (termos_list raw) =
      filtrar_dados df tf := by
    rw [h2, selecionar_amostra]
    simp [contem_padrao_or]
  rw [run_analysis, if_neg h1]
  show some (analisar_frequencia_termos (filtrar_dados df tf) raw,
      selecionar_amostra (filtrar_dados df tf) (termos_list raw)) =
    some ([], filtrar_dados df tf)
  rw [hfreq, hsel]

/-- Witness for C10: the raw input `","` on a one-row corpus selects the
whole corpus and reports no frequencies. -/
theorem C10_padrao_vazio_witness :
    run_analysis [rec1] "AMBOS" "," = some ([], filtrar_dados [rec1] "AMBOS") :=
  C10_padrao_vazio.1 [rec1] "AMBOS" "," (by decide) (by decide)

/-- C2: for a non-empty term list, the sample selection returns an
order-preserving sublist of the corpus in which every kept row's
lower-cased text contains at least one of the terms as a whole word
(logical OR across terms), and every excluded row contains none of them. -/
theorem C2_selecao_amostra (df : List Record) (termos : List String)
    (h : termos ≠ []) :
    List.Sublist (selecionar_amostra df termos) df ∧
    (∀ r ∈ selecionar_amostra df termos,
        ∃ t ∈ termos, contem_palavra t (lowerStr r.Ementa) = true) ∧
    (∀ r ∈ df, r ∉ selecionar_amostra df termos →
        ∀ t ∈ termos, contem_palavra t (lowerStr r.Ementa) = false) := by
  obtain ⟨t0, ts, rfl⟩ := List.exists_cons_of_ne_nil h
  refine ⟨List.filter_sublist df, ?_, ?_⟩
  · intro r hr
    rw [selecionar_amostra, List.mem_filter] at hr
    have hp : (t0 :: ts).any
        (fun t => contem_palavra t (lowerStr r.Ementa)) = true := hr.2
    exact List.any_eq_true.mp hp
  · intro r hrdf hrnot t ht
    cases hcp : contem_palavra t (lowerStr r.Ementa) with
    | false => rfl
    | true =>
      exfalso
      apply hrnot
      rw [selecionar_amostra, List.mem_filter]
      refine ⟨hrdf, ?_⟩
      have : (t0 :: ts).any
          (fun u => contem_palavra u (lowerStr r.Ementa)) = true :=
        List.any_eq_true.mpr ⟨t, ht, hcp⟩
      exact this

/-- Witness for C2 on the spec's two-row corpus and the term list
["dano moral"]. -/
theorem C2_selecao_amostra_witness :
    List.Sublist (selecionar_amostra [rec1, rec2] ["dano moral"])
      [rec1, rec2] ∧
    (∀ r ∈ selecionar_amostra [rec1, rec2] ["dano moral"],
        ∃ t ∈ ["dano moral"], contem_palavra t (lowerStr r.Ementa) = true) ∧
    (∀ r ∈ [rec1, rec2],
        r ∉ selecionar_amostra [rec1, rec2] ["dano moral"] →
        ∀ t ∈ ["dano moral"], contem_palavra t (lowerStr r.Ementa) = false) :=
  C2_selecao_amostra [rec1, rec2] ["dano moral"] (by decide)

/-- C3: the frequency report has exactly one entry per distinct normalized
term (its key sequence is a permutation of the deduplicated term list), and
every entry's count equals the sum over all rows of the number of
non-overlapping whole-word matches of that term in the row's lower-cased
text (counts are `Nat`, hence non-negative). -/
theorem C3_frequencias (df : List Record) (raw : String) :
    ((analisar_frequencia_termos df raw).map Prod.fst).Perm
      (termos_list raw).dedup ∧
    ∀ p ∈ analisar_frequencia_termos df raw,
      p.2 = (df.map
        (fun r => contar_ocorrencias p.1 (lowerStr r.Ementa))).sum := by
  constructor
  · have hperm : ((analisar_frequencia_termos df raw).map Prod.fst).Perm
        ((freqs df (termos_list raw)).map Prod.fst) :=
      (sort_desc_perm (freqs df (termos_list raw))).map Prod.fst
    refine hperm.trans ?_
    rw [List.perm_ext_iff_of_nodup (freqs_keys_nodup df (termos_list raw))
      (List.nodup_dedup _)]
    intro a
    rw [freqs_keys_mem, List.mem_dedup]
  · intro p hp
    have hp' : p ∈ freqs df (termos_list raw) :=
      ((sort_desc_perm (freqs df (termos_list raw))).mem_iff).mp hp
    exact freqs_values df (termos_list raw) p hp'

/-- Witness for C3 on the spec's first row and the raw terms
"dano moral, moral": both normalized terms count once, and the entry
("dano moral", 1) has the stated summed count. -/
theorem C3_frequencias_witness :
    ((analisar_frequencia_termos [rec1] "dano moral, moral").map
      Prod.fst).Perm (termos_list "dano moral, moral").dedup ∧
    ("dano moral", 1).2 = ([rec1].map
      (fun r => contar_ocorrencias ("dano moral", 1).1
        (lowerStr r.Ementa))).sum :=
  ⟨(C3_frequencias [rec1] "dano moral, moral").1,
    (C3_frequencias [rec1] "dano moral, moral").2 ("dano moral", 1)
      (by decide)⟩

/-- C5 counterexample: the raw input "a, a" normalizes to ["a", "a"],
which contains a duplicate — `termos_list` never discards duplicates, so
the claim that the resulting term list contains no duplicate entries is
false. -/
theorem C5_normalizacao_counterexample :
    termos_list "a, a" = ["a", "a"] ∧ ¬ (termos_list "a, a").Nodup :=
  ⟨by decide, by decide⟩

/-- C5 amended: term normalization splits on commas, trims whitespace,
lower-cases each piece, and discards empty pieces — every produced term is
non-empty and is the lower-cased trimmed form of one comma-separated piece
of the input, in order of appearance — but it does NOT discard duplicates:
a repeated term appears repeatedly (deduplication happens only later, in
the frequency dict). -/
theorem C5_normalizacao :
    (∀ raw t, t ∈ termos_list raw →
        t ≠ "" ∧ ∃ p ∈ splitComma raw.data, t = lowerStr ⟨stripChars p⟩) ∧
    termos_list " Dano Moral , AÇÃO, dano moral" =
      ["dano moral", "ação", "dano moral"] ∧
    termos_list "a, a" = ["a", "a"] := by
  refine ⟨?_, by decide, by decide⟩
  intro raw t ht
  rw [termos_list] at ht
  obtain ⟨p, hp, rfl⟩ := List.mem_map.mp ht
  rw [List.mem_filter] at hp
  have hne : stripChars p ≠ [] := by
    intro hc
    rw [hc] at hp
    simp at hp
  refine ⟨?_, ⟨p, hp.1, rfl⟩⟩
  intro hc
  apply hne
  have hdata : (stripChars p).map pyToLower = [] := congrArg String.data hc
  exact List.map_eq_nil_iff.mp hdata

/-- Witness for C5: the first term produced from "a, a" is non-empty and
comes from a piece of the split input. -/
theorem C5_normalizacao_witness :
    "a" ≠ "" ∧ ∃ p ∈ splitComma ("a, a").data, "a" = lowerStr ⟨stripChars p⟩ :=
  C5_normalizacao.1 "a, a" "a" (by decide)

/-- C6 counterexample: with the empty corpus and raw terms "alfa, beta"
both counts are 0 (a tie); the report is [("beta", 0), ("alfa", 0)] — the
reverse of the input order — not the claimed stable input order
[("alfa", 0), ("beta", 0)]. -/
theorem C6_ordenacao_counterexample :
    analisar_frequencia_termos [] "alfa, beta" =
      [("beta", 0), ("alfa", 0)] ∧
    analisar_frequencia_termos [] "alfa, beta" ≠
      [("alfa", 0), ("beta", 0)] :=
  ⟨by decide, by decide⟩

/-- C6 amended: the report is ordered descending by count (pairwise, every
later entry's count is at most every earlier entry's), but terms with equal
counts appear in REVERSE of their input-list relative order: pandas
implements the descending sort as an ascending argsort whose permutation is
then reversed, which reverses ties (shown on the tied example
"alfa, beta"). -/
theorem C6_ordenacao (df : List Record) (raw : String) :
    (analisar_frequencia_termos df raw).Pairwise (fun p q => q.2 ≤ p.2) ∧
    analisar_frequencia_termos [] "alfa, beta" =
      [("beta", 0), ("alfa", 0)] :=
  ⟨sort_desc_sorted _, by decide⟩

end AnalisadorSentencas
